import Mathlib

/-!
Verification development for the NextPick reverse-image-search core
(`src/NextPick/image_search.py`).

The repository's own code under `src/` is the two pipeline functions
`get_vector_index` and `eval_test_image`, plus the `transform` preprocessing
composition.  The Vector Index itself (the `annoy` library), the torchvision
transform primitives, PIL image decoding and the `config` module are not part
of `src/`; they are modelled here from the specification's contracts, each
such definition carries a doc comment starting `Modelled from the spec:`.

Embeddings are modelled as lists of rationals.  Annoy's angular distance
`sqrt (2 - 2 * cos θ)` between a query `q` and a stored vector `v` is an
irrational real; it is represented exactly by the pair
`(⟨q,v⟩, ‖q‖² * ‖v‖²)` of rationals, from which the distance order and the
distance-zero test are decided exactly (see `cosKey`, `aDistLE`, `aDistZero`).
-/

namespace NextPick

/-- Dot product of two embedding vectors (componentwise product, summed). -/
def dot (u v : List ℚ) : ℚ := (List.zipWith (· * ·) u v).sum

/-- Squared Euclidean norm of an embedding vector. -/
def norm2 (v : List ℚ) : ℚ := dot v v

/-- Exact representation of the angular distance between query `q` and stored
vector `v`: the pair `(⟨q,v⟩, ‖q‖² ‖v‖²)`.  The real distance it denotes is
`sqrt (2 - 2 * d.1 / sqrt d.2)`. -/
def aDist (q v : List ℚ) : ℚ × ℚ := (dot q v, norm2 q * norm2 v)

/-- Rational key that is strictly monotone in the cosine `d.1 / sqrt d.2`
(for `d.2 > 0`): the sign-carrying squared cosine.  Larger key means larger
cosine, hence smaller angular distance. -/
def cosKey (d : ℚ × ℚ) : ℚ :=
  if 0 ≤ d.1 then d.1 ^ 2 / d.2 else -(d.1 ^ 2 / d.2)

/-- `aDistLE d e` : the angular distance represented by `d` is at most the one
represented by `e` (cosine of `d` at least cosine of `e`). -/
def aDistLE (d e : ℚ × ℚ) : Prop := cosKey e ≤ cosKey d

instance : DecidableRel aDistLE := fun _ _ => inferInstanceAs (Decidable (_ ≤ _))

/-- `aDistZero d` : the angular distance represented by `d` is exactly `0`,
i.e. the cosine is `1` (`d.1 = sqrt d.2 ≥ 0`). -/
def aDistZero (d : ℚ × ℚ) : Prop := 0 ≤ d.1 ∧ d.1 ^ 2 = d.2

instance : DecidablePred aDistZero := fun _ => inferInstanceAs (Decidable (_ ∧ _))

/-- The error kinds named by the specification's error-handling design. -/
inductive PipelineError where
  | ImageDecodeError
  | DimensionMismatchError
  | IndexStateError
  deriving DecidableEq, Repr

/-- Modelled from the spec: the `annoy` library's `AnnoyIndex` (not part of
`src/`).  `f` is the dimensionality fixed at construction, `items` the
inserted (identifier, embedding) pairs in insertion order, `built` the
unbuilt/built state flag. -/
structure AnnoyIndex where
  f : Nat
  items : List (Nat × List ℚ)
  built : Bool
  deriving DecidableEq, Repr

/-- Modelled from the spec: a fresh, unbuilt index of dimensionality `f`
(`AnnoyIndex(cfg.RESNET18_FEAT, metric=cfg.ANNOY_METRIC)` with the angular
metric). -/
def AnnoyIndex.new (f : Nat) : AnnoyIndex := ⟨f, [], false⟩

/-- Modelled from the spec: `insert` is valid only in the unbuilt state
(`IndexStateError` after `build()`), and fails with `DimensionMismatchError`
when the embedding's length differs from the index dimensionality `D`. -/
def AnnoyIndex.add_item (t : AnnoyIndex) (i : Nat) (v : List ℚ) :
    Except PipelineError AnnoyIndex :=
  if t.built then .error .IndexStateError
  else if v.length ≠ t.f then .error .DimensionMismatchError
  else .ok { t with items := t.items ++ [(i, v)] }

/-- Modelled from the spec: `build` transitions unbuilt → built, a strict
one-way transition; a second `build()` call fails with `IndexStateError`.
The tree-count quality parameter does not affect the modelled (full-recall)
query semantics. -/
def AnnoyIndex.build (t : AnnoyIndex) (_nTrees : Nat) :
    Except PipelineError AnnoyIndex :=
  if t.built then .error .IndexStateError
  else .ok { t with built := true }

/-- Ranking relation on stored items for query vector `q`: item `x` is at
angular distance from `q` at most that of item `y`. -/
def itemLE (q : List ℚ) (x y : Nat × List ℚ) : Prop :=
  aDistLE (aDist q x.2) (aDist q y.2)

instance (q : List ℚ) : DecidableRel (itemLE q) :=
  fun _ _ => inferInstanceAs (Decidable (aDistLE _ _))

instance (q : List ℚ) : IsTotal (Nat × List ℚ) (itemLE q) :=
  ⟨fun _ _ => le_total _ _⟩

instance (q : List ℚ) : IsTrans (Nat × List ℚ) (itemLE q) :=
  ⟨fun _ _ _ h1 h2 => le_trans h2 h1⟩

/-- Modelled from the spec: `query` (`get_nns_by_vector` with
`include_distances=True`) is valid only in the built state
(`IndexStateError` before `build()`); it returns up to `n` identifiers ranked
ascending by the angular distance metric, paired positionally with their
distances.  The spec's approximate search is modelled at its designed-for
full recall: an exact ranking of all stored items by the metric. -/
def AnnoyIndex.get_nns_by_vector (t : AnnoyIndex) (q : List ℚ) (n : Nat) :
    Except PipelineError (List Nat × List (ℚ × ℚ)) :=
  if t.built then
    let s := (t.items.insertionSort (itemLE q)).take n
    .ok (s.map Prod.fst, s.map fun x => aDist q x.2)
  else .error .IndexStateError

/-- One batch of the corpus indexing loop of `get_vector_index`
(`for i in range(0, len(data)): t.add_item(target[i], outputs[i])` where
`outputs = model(data)`): each (image, identifier) pair of the batch is
inserted under its identifier with the embedding `embed` produces for it. -/
def addBatch {α : Type} (embed : α → List ℚ) (t : AnnoyIndex)
    (batch : List (α × Nat)) : Except PipelineError AnnoyIndex :=
  batch.foldlM (fun t p => t.add_item p.2 (embed p.1)) t

/-- Embedding of `get_vector_index` (image_search.py lines 85–93): construct a
fresh `AnnoyIndex`, iterate the loader's batches inserting each item's
embedding under its identifier, then `build`.  The dimensionality `f` and tree
count `nTrees` stand for `cfg.RESNET18_FEAT` (512 for resnet18) and
`cfg.ANNOY_TREE`, configuration constants from the `config` module that is not
part of `src/`; `embed` stands for the frozen model applied to a
loader-preprocessed tensor. -/
def get_vector_index {α : Type} (f nTrees : Nat) (embed : α → List ℚ)
    (image_loader : List (List (α × Nat))) : Except PipelineError AnnoyIndex := do
  let t ← image_loader.foldlM (addBatch embed) (AnnoyIndex.new f)
  t.build nTrees

/-- Embedding of `eval_test_image` (image_search.py lines 96–112): decode the
test image (`Image.open(...).convert('RGB')`; `decode` returns `none` exactly
when PIL fails to read or convert it, modelled from the spec's
`ImageDecodeError`), apply preprocessing and the model (`embed`), query the
index with `include_distances=True`, and return the pair
`(searches[0], searches[1])` of identifiers and distances. -/
def eval_test_image {ι α : Type} (decode : ι → Option α) (embed : α → List ℚ)
    (annoy_index : AnnoyIndex) (test_img : ι) (top_n : Nat := 5) :
    Except PipelineError (List Nat × List (ℚ × ℚ)) :=
  match decode test_img with
  | none => .error .ImageDecodeError
  | some img => annoy_index.get_nns_by_vector (embed img) top_n

/-- Modelled from the spec: a raw decoded 3-channel color image — pixel grid
of arbitrary width and height, channels indexed `0, 1, 2`, pixel values in
`[0, 255]`. -/
structure PImage where
  width : Nat
  height : Nat
  pix : Nat → Nat → Nat → ℚ

/-- Modelled from the spec: `trn.Resize(cfg.RESIZE)` — resize the shortest
side to the configured size `S`, scaling the other side to preserve aspect
ratio (nearest-neighbor sampling models the interpolation, which the spec
leaves unspecified). -/
def resize (S : Nat) (img : PImage) : PImage :=
  if img.height ≤ img.width then
    { width := img.width * S / max 1 img.height, height := S,
      pix := fun x y c =>
        img.pix (x * img.height / max 1 S) (y * img.height / max 1 S) c }
  else
    { width := S, height := img.height * S / max 1 img.width,
      pix := fun x y c =>
        img.pix (x * img.width / max 1 S) (y * img.width / max 1 S) c }

/-- Modelled from the spec: `trn.CenterCrop(cfg.CROP)` — crop the centered
`C × C` window; when the image is smaller than `C` along an edge it is
zero-padded, so the output is always `C × C`. -/
def centerCrop (C : Nat) (img : PImage) : PImage :=
  { width := C, height := C,
    pix := fun x y c =>
      let sx : Int := ((img.width : Int) - C) / 2 + x
      let sy : Int := ((img.height : Int) - C) / 2 + y
      if 0 ≤ sx ∧ sx < img.width ∧ 0 ≤ sy ∧ sy < img.height then
        img.pix sx.toNat sy.toNat c
      else 0 }

/-- Modelled from the spec: `trn.ToTensor()` — a channel-first
`3 × height × width` tensor of floating-point values scaled to `[0, 1]`
(pixel value divided by 255), as nested lists. -/
def toTensor (img : PImage) : List (List (List ℚ)) :=
  (List.range 3).map fun c =>
    (List.range img.height).map fun y =>
      (List.range img.width).map fun x => img.pix x y c / 255

/-- Modelled from the spec: `trn.Normalize(means, stds)` — subtract the fixed
per-channel mean and divide by the fixed per-channel standard deviation, on a
3-channel channel-first tensor. -/
def normalize (means stds : List ℚ) (t : List (List (List ℚ))) :
    List (List (List ℚ)) :=
  (List.range 3).map fun c =>
    (t.getD c []).map fun row =>
      row.map fun v => (v - means.getD c 0) / stds.getD c 1

/-- Embedding of `transform` (image_search.py lines 25–29): the fixed
branch-free composition Resize, CenterCrop, ToTensor, Normalize with the
ImageNet statistics.  `S` and `C` stand for the configuration constants
`cfg.RESIZE` and `cfg.CROP` from the `config` module that is not part of
`src/`. -/
def transform (S C : Nat) (img : PImage) : List (List (List ℚ)) :=
  normalize [0.485, 0.456, 0.406] [0.229, 0.224, 0.225]
    (toTensor (centerCrop C (resize S img)))

/-- Entry `(c, y, x)` of a channel-first tensor given as nested lists. -/
def tensorEntry (t : List (List (List ℚ))) (c y x : Nat) : ℚ :=
  ((t.getD c []).getD y []).getD x 0

/-! ### Supporting lemmas -/

lemma norm2_nonneg (v : List ℚ) : 0 ≤ norm2 v := by
  rw [norm2, dot, List.zipWith_same]
  exact List.sum_nonneg fun a ha => by
    obtain ⟨b, _, rfl⟩ := List.mem_map.mp ha
    exact mul_self_nonneg b

lemma aDistZero_self (q : List ℚ) : aDistZero (aDist q q) :=
  ⟨norm2_nonneg q, sq (norm2 q)⟩

lemma get_nns_built (t : AnnoyIndex) (q : List ℚ) (n : Nat)
    (hb : t.built = true) :
    t.get_nns_by_vector q n =
      .ok (((t.items.insertionSort (itemLE q)).take n).map Prod.fst,
        ((t.items.insertionSort (itemLE q)).take n).map fun x => aDist q x.2) := by
  simp [AnnoyIndex.get_nns_by_vector, hb]

/-! ### C2: query results are ranked, length min(top_k, corpus size) -/

/-- C2. For every built index and requested `top_n`, `eval_test_image`
succeeds and returns (identifier, distance) lists, positionally paired,
sorted ascending by angular distance, of length `min top_n (number of indexed
items)`; in particular when `top_n` exceeds the number of items every indexed
identifier is returned, ranked, without error. -/
theorem eval_query_ranked {ι α : Type} (decode : ι → Option α)
    (embed : α → List ℚ) (t : AnnoyIndex) (p : ι) (n : Nat) (img : α)
    (hd : decode p = some img) (hb : t.built = true) :
    ∃ ids dists,
      eval_test_image decode embed t p n = .ok (ids, dists) ∧
      ids.length = min n t.items.length ∧
      dists.length = ids.length ∧
      List.Sorted aDistLE dists ∧
      (t.items.length ≤ n → ∀ it ∈ t.items, it.1 ∈ ids) := by
  have hperm := List.perm_insertionSort (itemLE (embed img)) t.items
  refine ⟨((t.items.insertionSort (itemLE (embed img))).take n).map Prod.fst,
    ((t.items.insertionSort (itemLE (embed img))).take n).map
      fun x => aDist (embed img) x.2, ?_, ?_, ?_, ?_, ?_⟩
  · simp only [eval_test_image, hd]
    exact get_nns_built t (embed img) n hb
  · simp [hperm.length_eq]
  · simp
  · have hs : List.Sorted (itemLE (embed img))
        ((t.items.insertionSort (itemLE (embed img))).take n) :=
      List.Pairwise.sublist (List.take_sublist n _)
        (List.sorted_insertionSort _ _)
    exact List.pairwise_map.mpr hs
  · intro hlen it hit
    rw [List.take_of_length_le (hperm.length_eq ▸ hlen)]
    exact List.mem_map.mpr ⟨it, (List.mem_insertionSort _).mpr hit, rfl⟩

/-- Witness for C2 at a concrete two-item built index with `top_n = 5 > 2`. -/
theorem eval_query_ranked_witness :
    ∃ ids dists,
      eval_test_image some (fun v : List ℚ => v)
          ⟨2, [(0, [1, 0]), (1, [0, 1])], true⟩ [1, 0] 5 = .ok (ids, dists) ∧
      ids.length =
        min 5 (⟨2, [(0, [1, 0]), (1, [0, 1])], true⟩ : AnnoyIndex).items.length ∧
      dists.length = ids.length ∧
      List.Sorted aDistLE dists ∧
      ((⟨2, [(0, [1, 0]), (1, [0, 1])], true⟩ : AnnoyIndex).items.length ≤ 5 →
        ∀ it ∈ (⟨2, [(0, [1, 0]), (1, [0, 1])], true⟩ : AnnoyIndex).items,
          it.1 ∈ ids) :=
  eval_query_ranked some (fun v => v) ⟨2, [(0, [1, 0]), (1, [0, 1])], true⟩
    [1, 0] 5 [1, 0] rfl rfl

/-! ### C1: self-retrieval -/

/-- C1 counterexample. Embedding `[2,0]` is inserted under identifier 1 by
`get_vector_index` (alongside `[1,0]` under identifier 0).  `[1,0]` and
`[2,0]` are positively colinear, so both are at angular distance 0 from the
query `[2,0]`; querying with `[2,0]` itself ranks identifier 0 (inserted
first) ahead of identifier 1, so the first result is not the identifier the
query vector was inserted under. -/
theorem self_retrieval_tie_counterexample :
    Except.map (fun r => r.1.head?)
      ((get_vector_index 2 10 (fun v : List ℚ => v)
          [[([1, 0], 0), ([2, 0], 1)]]).bind
        (fun t => eval_test_image some (fun v : List ℚ => v) t [2, 0] 2)) ≠
    Except.ok (some 1) := by
  norm_num [get_vector_index, eval_test_image, addBatch, AnnoyIndex.new,
    AnnoyIndex.add_item, AnnoyIndex.build, AnnoyIndex.get_nns_by_vector,
    itemLE, aDistLE, aDist, cosKey, dot, norm2, Except.bind, List.foldlM,
    List.insertionSort, List.orderedInsert, bind, pure, Except.pure,
    Except.map]

/-- C1 amended. For an embedding `E` stored under identifier `I` in a built
index, a query with `E` itself returns `I` as the first result, at angular
distance exactly 0, provided every other stored item is at cosine similarity
strictly below 1 with `E` (no distance tie); with ties, a tied item inserted
earlier may be ranked first. -/
theorem self_retrieval_of_strict_closest (t : AnnoyIndex) (I : Nat)
    (E : List ℚ) (n : Nat) (hb : t.built = true) (hmem : (I, E) ∈ t.items)
    (huniq : ∀ p ∈ t.items, p ≠ (I, E) →
      cosKey (aDist E p.2) < cosKey (aDist E E))
    (hn : 1 ≤ n) (ids : List Nat) (dists : List (ℚ × ℚ))
    (h : t.get_nns_by_vector E n = .ok (ids, dists)) :
    ids.head? = some I ∧ dists.head? = some (aDist E E) ∧
      aDistZero (aDist E E) := by
  rw [get_nns_built t E n hb, Except.ok.injEq, Prod.mk.injEq] at h
  obtain ⟨h1, h2⟩ := h
  have hsmem : (I, E) ∈ t.items.insertionSort (itemLE E) :=
    (List.mem_insertionSort _).mpr hmem
  obtain ⟨h0, tl, hcons⟩ :
      ∃ h0 tl, t.items.insertionSort (itemLE E) = h0 :: tl := by
    cases hc : t.items.insertionSort (itemLE E) with
    | nil => rw [hc] at hsmem; simp at hsmem
    | cons a l => exact ⟨a, l, rfl⟩
  have hsorted := List.sorted_insertionSort (itemLE E) t.items
  rw [hcons] at hsorted hsmem
  have hh0 : h0 = (I, E) := by
    by_contra hne
    have h0mem : h0 ∈ t.items :=
      (List.mem_insertionSort _).mp (hcons ▸ List.mem_cons_self h0 tl)
    have hlt := huniq h0 h0mem hne
    have htl : (I, E) ∈ tl := by
      rcases List.mem_cons.mp hsmem with heq | htl
      · exact absurd heq.symm hne
      · exact htl
    have hle : itemLE E h0 (I, E) := (List.sorted_cons.mp hsorted).1 _ htl
    have hle' : cosKey (aDist E E) ≤ cosKey (aDist E h0.2) := hle
    exact absurd (lt_of_le_of_lt hle' hlt) (lt_irrefl _)
  have htake : (t.items.insertionSort (itemLE E)).take n =
      h0 :: tl.take (n - 1) := by
    cases n with
    | zero => omega
    | succ m => simp [hcons]
  refine ⟨?_, ?_, aDistZero_self E⟩
  · rw [← h1, htake, hh0]; rfl
  · rw [← h2, htake, hh0]; rfl

/-- Witness for the amended C1 at a concrete two-item built index where the
stored embedding `[1,0]` under identifier 7 is the unique closest item to
itself. -/
theorem self_retrieval_of_strict_closest_witness :
    ([7] : List ℕ).head? = some 7 ∧
    ([((1 : ℚ), (1 : ℚ))] : List (ℚ × ℚ)).head? =
      some (aDist [1, 0] [1, 0]) ∧
    aDistZero (aDist [1, 0] [1, 0]) :=
  self_retrieval_of_strict_closest
    ⟨2, [(5, [0, 1]), (7, [1, 0])], true⟩ 7 [1, 0] 1 rfl (by simp)
    (by
      intro p hp hne
      fin_cases hp
      · norm_num [cosKey, aDist, dot, norm2]
      · exact absurd rfl hne)
    (by norm_num) [7] [(1, 1)]
    (by norm_num [AnnoyIndex.get_nns_by_vector, itemLE, aDistLE, aDist,
      cosKey, dot, norm2, List.insertionSort, List.orderedInsert])

/-! ### C10: parallel identifier and distance lists -/

/-- C10. Every successful `eval_test_image` call returns a pair of parallel
lists of equal length — identifiers and distances — where the distance at
each position is the angular distance from the query embedding to the stored
embedding of the identifier at the same position. -/
theorem eval_parallel_lists {ι α : Type} (decode : ι → Option α)
    (embed : α → List ℚ) (t : AnnoyIndex) (p : ι) (n : Nat) (img : α)
    (hd : decode p = some img) (r : List Nat × List (ℚ × ℚ))
    (h : eval_test_image decode embed t p n = .ok r) :
    r.1.length = r.2.length ∧
    ∀ j, j < r.1.length →
      ∃ v, (r.1.getD j 0, v) ∈ t.items ∧
        r.2.getD j (0, 0) = aDist (embed img) v := by
  by_cases hb : t.built = true
  · simp only [eval_test_image, hd] at h
    rw [get_nns_built t (embed img) n hb, Except.ok.injEq] at h
    subst h
    constructor
    · simp
    · intro j hj
      simp only [List.length_map] at hj
      have h1 : (((t.items.insertionSort (itemLE (embed img))).take n).map
          Prod.fst).getD j 0 =
          ((t.items.insertionSort (itemLE (embed img))).take n)[j].1 := by
        rw [List.getD_eq_getElem _ _ (by simpa using hj), List.getElem_map]
      have h2 : (((t.items.insertionSort (itemLE (embed img))).take n).map
          fun x => aDist (embed img) x.2).getD j (0, 0) =
          aDist (embed img)
            ((t.items.insertionSort (itemLE (embed img))).take n)[j].2 := by
        rw [List.getD_eq_getElem _ _ (by simpa using hj), List.getElem_map]
      refine ⟨((t.items.insertionSort (itemLE (embed img))).take n)[j].2,
        ?_, h2⟩
      rw [h1]
      have hmem : ((t.items.insertionSort (itemLE (embed img))).take n)[j] ∈
          t.items :=
        (List.mem_insertionSort _).mp
          (List.Sublist.mem (List.getElem_mem _) (List.take_sublist n _))
      simpa using hmem
  · simp [eval_test_image, hd, AnnoyIndex.get_nns_by_vector, hb] at h

/-- Witness for C10 at a concrete query against a concrete built index. -/
theorem eval_parallel_lists_witness :
    (([0], [((1 : ℚ), (1 : ℚ))]) : List ℕ × List (ℚ × ℚ)).1.length =
      (([0], [((1 : ℚ), (1 : ℚ))]) : List ℕ × List (ℚ × ℚ)).2.length ∧
    ∀ j, j < (([0], [((1 : ℚ), (1 : ℚ))]) : List ℕ × List (ℚ × ℚ)).1.length →
      ∃ v, ((([0], [((1 : ℚ), (1 : ℚ))]) : List ℕ × List (ℚ × ℚ)).1.getD j 0,
          v) ∈ (⟨2, [(0, [1, 0]), (1, [0, 1])], true⟩ : AnnoyIndex).items ∧
        (([0], [((1 : ℚ), (1 : ℚ))]) : List ℕ × List (ℚ × ℚ)).2.getD j
            (0, 0) =
          aDist ((fun v : List ℚ => v) [1, 0]) v :=
  eval_parallel_lists some (fun v : List ℚ => v)
    ⟨2, [(0, [1, 0]), (1, [0, 1])], true⟩ [1, 0] 1 [1, 0] rfl
    ([0], [(1, 1)])
    (by norm_num [eval_test_image, AnnoyIndex.get_nns_by_vector, itemLE,
      aDistLE, aDist, cosKey, dot, norm2, List.insertionSort,
      List.orderedInsert])

/-! ### C3: index state machine -/

/-- C3. For every Vector Index instance, `add_item` after `build()` fails with
`IndexStateError`, another `build()` after `build()` fails with
`IndexStateError` (the unbuilt → built transition is strictly one-way), and
`get_nns_by_vector` before `build()` fails with `IndexStateError`. -/
theorem index_state_machine (t : AnnoyIndex) (i : Nat) (v q : List ℚ)
    (n m : Nat) :
    (t.built = true →
      t.add_item i v = .error .IndexStateError ∧
      t.build m = .error .IndexStateError) ∧
    (t.built = false →
      t.get_nns_by_vector q n = .error .IndexStateError) := by
  refine ⟨fun h => ⟨?_, ?_⟩, fun h => ?_⟩ <;>
    simp [AnnoyIndex.add_item, AnnoyIndex.build, AnnoyIndex.get_nns_by_vector, h]

/-- Witness for C3 at a concrete built index and a concrete unbuilt index. -/
theorem index_state_machine_witness :
    ((⟨2, [], true⟩ : AnnoyIndex).add_item 0 [1, 0] =
        .error .IndexStateError ∧
      (⟨2, [], true⟩ : AnnoyIndex).build 5 = .error .IndexStateError) ∧
    (⟨2, [], false⟩ : AnnoyIndex).get_nns_by_vector [1, 0] 3 =
      .error .IndexStateError :=
  ⟨(index_state_machine ⟨2, [], true⟩ 0 [1, 0] [1, 0] 3 5).1 rfl,
    (index_state_machine ⟨2, [], false⟩ 0 [1, 0] [1, 0] 3 5).2 rfl⟩

/-! ### C4: dimension mismatch on insert -/

/-- C4. For every unbuilt Vector Index, inserting an embedding whose length
differs from the index's dimensionality `D = t.f` (the value
`cfg.RESNET18_FEAT` fixed when the `AnnoyIndex` is constructed by
`get_vector_index`) fails with `DimensionMismatchError`. -/
theorem insert_dimension_mismatch (t : AnnoyIndex) (i : Nat) (v : List ℚ)
    (hb : t.built = false) (hd : v.length ≠ t.f) :
    t.add_item i v = .error .DimensionMismatchError := by
  simp [AnnoyIndex.add_item, hb, hd]

/-- Witness for C4: inserting a 1-dimensional vector into a fresh
2-dimensional index fails with `DimensionMismatchError`. -/
theorem insert_dimension_mismatch_witness :
    (AnnoyIndex.new 2).add_item 0 [1] = .error .DimensionMismatchError :=
  insert_dimension_mismatch (AnnoyIndex.new 2) 0 [1] rfl (by decide)

/-! ### C8: corpus indexing pipeline contract -/

lemma add_item_ok (t : AnnoyIndex) (i : Nat) (v : List ℚ)
    (hb : t.built = false) (hf : v.length = t.f) :
    t.add_item i v = .ok { t with items := t.items ++ [(i, v)] } := by
  simp [AnnoyIndex.add_item, hb, hf]

lemma addBatch_ok {α : Type} (embed : α → List ℚ) (b : List (α × Nat))
    (t : AnnoyIndex) (hb : t.built = false)
    (hf : ∀ p ∈ b, (embed p.1).length = t.f) :
    addBatch embed t b =
      .ok { t with items := t.items ++ b.map fun p => (p.2, embed p.1) } := by
  induction b generalizing t with
  | nil => simp [addBatch, pure, Except.pure]
  | cons p b ih =>
    rw [addBatch, List.foldlM_cons,
      add_item_ok t p.2 (embed p.1) hb (hf p (List.mem_cons_self _ _))]
    simp only [bind, Except.bind]
    rw [show (List.foldlM (fun t p => t.add_item p.2 (embed p.1))
        { t with items := t.items ++ [(p.2, embed p.1)] } b : Except _ _) =
      addBatch embed { t with items := t.items ++ [(p.2, embed p.1)] } b
      from rfl]
    rw [ih { t with items := t.items ++ [(p.2, embed p.1)] } hb
      (fun p hp => hf p (List.mem_cons_of_mem _ hp))]
    simp

/-- C8. Given an enumerable source of (image, identifier) pairs grouped in
batches, `get_vector_index` inserts, for each pair and in source order, the
embedding `embed` produces for the image under exactly that pair's
identifier into a fresh unbuilt index, and builds exactly once after the
source is exhausted: the returned index is built and holds one item per
source pair (assuming every produced embedding has the configured
dimensionality `f`, as the frozen extractor guarantees). -/
theorem get_vector_index_contract {α : Type} (f nT : Nat)
    (embed : α → List ℚ) (loader : List (List (α × Nat)))
    (hf : ∀ b ∈ loader, ∀ p ∈ b, (embed p.1).length = f) :
    get_vector_index f nT embed loader =
      .ok ⟨f, loader.flatten.map (fun p => (p.2, embed p.1)), true⟩ := by
  suffices hfold : ∀ (l : List (List (α × Nat))) (t : AnnoyIndex),
      t.built = false → t.f = f →
      (∀ b ∈ l, ∀ p ∈ b, (embed p.1).length = f) →
      l.foldlM (addBatch embed) t =
        .ok { t with
          items := t.items ++ l.flatten.map fun p => (p.2, embed p.1) } by
    rw [get_vector_index, hfold loader (AnnoyIndex.new f) rfl rfl hf]
    simp [AnnoyIndex.new, AnnoyIndex.build, bind, Except.bind]
  intro l
  induction l with
  | nil => intro t _ _ _; simp [pure, Except.pure]
  | cons b l ih =>
    intro t hb htf hfl
    rw [List.foldlM_cons,
      addBatch_ok embed b t hb
        (fun p hp => htf ▸ hfl b (List.mem_cons_self _ _) p hp)]
    simp only [bind, Except.bind]
    rw [ih { t with items := t.items ++ b.map fun p => (p.2, embed p.1) }
      hb htf (fun b' hb' p hp => hfl b' (List.mem_cons_of_mem _ hb') p hp)]
    simp

/-- Witness for C8: two one-item batches produce a built index holding both
items in source order. -/
theorem get_vector_index_contract_witness :
    get_vector_index 2 3 (fun v : List ℚ => v) [[([1, 0], 0)], [([0, 1], 1)]] =
      .ok ⟨2, ([[([1, 0], 0)], [([0, 1], 1)]] :
          List (List (List ℚ × Nat))).flatten.map
        (fun p => (p.2, (fun v : List ℚ => v) p.1)), true⟩ :=
  get_vector_index_contract 2 3 (fun v => v) [[([1, 0], 0)], [([0, 1], 1)]]
    (by intro b hb p hp; fin_cases hb <;> fin_cases hp <;> rfl)

/-! ### C5: concrete end-to-end scenario -/

/-! ### C5: concrete end-to-end scenario -/

/-- C5. Indexing embeddings `[1,0]`, `[0,1]`, `[0.9,0.1]` (D = 2) under
identifiers 0, 1, 2 through `get_vector_index`, then querying with `[1,0]` at
`top_k = 2` through `eval_test_image`, returns identifiers `[0, 2]` in that
order; the first result is an exact match at angular distance 0
(`aDistZero`), and item 2 is ranked nearer than item 1 under the cosine
metric. -/
theorem end_to_end_scenario :
    (get_vector_index 2 10 (fun v : List ℚ => v)
        [[([1, 0], 0), ([0, 1], 1), ([9/10, 1/10], 2)]]).bind
      (fun t => eval_test_image some (fun v : List ℚ => v) t [1, 0] 2) =
    .ok ([0, 2], [(1, 1), (9/10, 41/50)]) ∧
    aDistZero (1, 1) := by
  constructor
  · norm_num [get_vector_index, eval_test_image, addBatch, AnnoyIndex.new,
      AnnoyIndex.add_item, AnnoyIndex.build, AnnoyIndex.get_nns_by_vector,
      itemLE, aDistLE, aDist, cosKey, dot, norm2, Except.bind, List.foldlM,
      List.insertionSort, List.orderedInsert, bind, pure, Except.pure]
  · exact ⟨by norm_num, by norm_num [aDistZero]⟩

/-! ### C9: image decoding failure behavior -/

/-- C9. As invoked by `eval_test_image`, preprocessing fails with
`ImageDecodeError` exactly when the input path cannot be decoded to a
3-channel color image (`decode` returns `none`); for every decodable input it
never produces `ImageDecodeError`. -/
theorem decode_failure_behavior {ι α : Type} (decode : ι → Option α)
    (embed : α → List ℚ) (t : AnnoyIndex) (p : ι) (n : Nat) :
    (decode p = none →
      eval_test_image decode embed t p n = .error .ImageDecodeError) ∧
    (∀ img, decode p = some img →
      eval_test_image decode embed t p n ≠ .error .ImageDecodeError) := by
  constructor
  · intro h
    simp [eval_test_image, h]
  · intro img h
    simp only [eval_test_image, h, AnnoyIndex.get_nns_by_vector]
    by_cases hb : t.built = true <;> simp [hb]

/-- Witness for C9: an undecodable input fails with `ImageDecodeError`; a
decodable one does not produce `ImageDecodeError`. -/
theorem decode_failure_behavior_witness :
    eval_test_image (fun _ : Nat => (none : Option (List ℚ)))
        (fun v => v) (AnnoyIndex.new 2) 0 5 = .error .ImageDecodeError ∧
    eval_test_image (fun _ : Nat => some ([1, 0] : List ℚ))
        (fun v => v) ⟨2, [(0, [1, 0])], true⟩ 0 5 ≠
      .error .ImageDecodeError :=
  ⟨(decode_failure_behavior (fun _ : Nat => (none : Option (List ℚ)))
      (fun v => v) (AnnoyIndex.new 2) 0 5).1 rfl,
    (decode_failure_behavior (fun _ : Nat => some ([1, 0] : List ℚ))
      (fun v => v) ⟨2, [(0, [1, 0])], true⟩ 0 5).2 [1, 0] rfl⟩

/-! ### C6: preprocessing pipeline shape and normalization -/

lemma centerCrop_height (C : Nat) (img : PImage) :
    (centerCrop C img).height = C := rfl

lemma centerCrop_width (C : Nat) (img : PImage) :
    (centerCrop C img).width = C := rfl

lemma toTensor_getD (img : PImage) (c : Nat) (hc : c < 3) :
    (toTensor img).getD c [] =
      (List.range img.height).map fun y =>
        (List.range img.width).map fun x => img.pix x y c / 255 := by
  rw [toTensor, List.getD_eq_getElem _ _ (by simpa using hc)]
  simp

lemma getD_map_range {α : Type} (g : Nat → α) (C n : Nat) (d : α)
    (hn : n < C) :
    ((List.range C).map g).getD n d = g n := by
  rw [List.getD_eq_getElem _ _ (by simpa using hn)]
  simp

lemma normalize_getD (means stds : List ℚ) (t : List (List (List ℚ)))
    (c : Nat) (hc : c < 3) :
    (normalize means stds t).getD c [] =
      (t.getD c []).map fun row =>
        row.map fun v => (v - means.getD c 0) / stds.getD c 1 := by
  rw [normalize, List.getD_eq_getElem _ _ (by simpa using hc)]
  simp

/-- C6. For every input image, `transform` — the fixed branch-free
composition of resize (shortest side to `S`), center-crop to `C × C`,
conversion to a channel-first tensor scaled to `[0,1]`, and per-channel
normalization with means `[0.485, 0.456, 0.406]` and standard deviations
`[0.229, 0.224, 0.225]` — produces a tensor of exactly shape `3 × C × C`
regardless of the input's size or aspect ratio, whose entry at `(c, y, x)`
is the cropped pixel value divided by 255, minus the channel mean, divided by
the channel standard deviation. -/
theorem transform_shape (S C : Nat) (img : PImage) :
    (transform S C img).length = 3 ∧
    (∀ ch ∈ transform S C img, ch.length = C ∧ ∀ row ∈ ch, row.length = C) ∧
    (∀ c y x : Nat, c < 3 → y < C → x < C →
      tensorEntry (transform S C img) c y x =
        ((centerCrop C (resize S img)).pix x y c / 255 -
          [(0.485 : ℚ), 0.456, 0.406].getD c 0) /
          [(0.229 : ℚ), 0.224, 0.225].getD c 1) := by
  refine ⟨by simp [transform, normalize], ?_, ?_⟩
  · intro ch hch
    rw [transform, normalize] at hch
    obtain ⟨c, hc, rfl⟩ := List.mem_map.mp hch
    rw [List.mem_range] at hc
    rw [toTensor_getD _ c hc, centerCrop_height, centerCrop_width]
    constructor
    · simp
    · intro row hrow
      obtain ⟨r0, hr0, rfl⟩ := List.mem_map.mp hrow
      obtain ⟨y, _, rfl⟩ := List.mem_map.mp hr0
      simp
  · intro c y x hc hy hx
    rw [tensorEntry, transform, normalize_getD _ _ _ c hc,
      toTensor_getD _ c hc, centerCrop_height, centerCrop_width,
      List.map_map, getD_map_range _ _ _ _ hy]
    simp only [Function.comp]
    rw [List.map_map, getD_map_range _ _ _ _ hx]
    simp [Function.comp]

/-- Witness for C6 at a concrete 1×1 image with `S = 2`, `C = 1`. -/
theorem transform_shape_witness :
    (transform 2 1 ⟨1, 1, fun _ _ _ => 255⟩).length = 3 ∧
    (∀ ch ∈ transform 2 1 ⟨1, 1, fun _ _ _ => 255⟩,
      ch.length = 1 ∧ ∀ row ∈ ch, row.length = 1) ∧
    (∀ c y x : Nat, c < 3 → y < 1 → x < 1 →
      tensorEntry (transform 2 1 ⟨1, 1, fun _ _ _ => 255⟩) c y x =
        ((centerCrop 1 (resize 2 ⟨1, 1, fun _ _ _ => 255⟩)).pix x y c / 255 -
          [(0.485 : ℚ), 0.456, 0.406].getD c 0) /
          [(0.229 : ℚ), 0.224, 0.225].getD c 1) :=
  transform_shape 2 1 ⟨1, 1, fun _ _ _ => 255⟩

end NextPick
